import Mathlib

/-!
Shallow embedding of the Spotlight API's participation ledger
(`BookmarksService` over the `event_users` table), its event query engine
(`EventsService.getAll`, `GetEventsController.handle`), and the bookmark
listing (`BookmarksService.getUserBookmarks`), together with theorems
settling the specification claims about them.

The relational store is embedded as a list of rows.  A fetched-and-saved
model mutates the row the fetch returned (`.first()`), so `save` and
`delete` are embedded as an update/removal of the first row satisfying the
fetch predicate.  Machine integers are modelled as `Nat`; SQL dates are
modelled as `Nat` ordinals compared with the same `<=`/`>=` the queries use.
-/

/-- One row of the `event_users` table (migration
`1750851416110_create_event_users_table`): the participation record linking
a user to an event, with the two facet flags `is_favorite` / `has_joined`
and the `created_at` timestamp (modelled as a `Nat`). -/
structure EventUser where
  userId : Nat
  eventId : Nat
  isFavorite : Bool
  hasJoined : Bool
  createdAt : Nat
  deriving Repr, DecidableEq

/-- Persisting a fetched model: replace the first row satisfying the fetch
predicate (the row `.first()` returned) by its mutated version. -/
def updateFirst (p : EventUser → Bool) (f : EventUser → EventUser) :
    List EventUser → List EventUser
  | [] => []
  | r :: rs => if p r then f r :: rs else r :: updateFirst p f rs

/-- Deleting a fetched model: remove the first row satisfying the fetch
predicate (the row `.first()` returned). -/
def removeFirst (p : EventUser → Bool) : List EventUser → List EventUser
  | [] => []
  | r :: rs => if p r then rs else r :: removeFirst p rs

/-- Row predicate of `EventUser.query().where('userId', u).where('eventId', e)`. -/
def matchesPair (userId eventId : Nat) (r : EventUser) : Bool :=
  r.userId == userId && r.eventId == eventId

/-- Row predicate of `removeBookmark`'s fetch: pair match together with
`where('isFavorite', true)`. -/
def favoriteRow (userId eventId : Nat) (r : EventUser) : Bool :=
  matchesPair userId eventId r && r.isFavorite

/-- The two `NotFoundException` outcomes of `addBookmark`. -/
inductive NotFoundError where
  | eventNotFound
  | userNotFound
  deriving Repr, DecidableEq

/-- Embedding of `BookmarksService.addBookmark(userId, eventId)`.  `events` and `users`
are the id columns of the `events` and `users` tables (what `Event.find` /
`User.find` consult); `store` is the `event_users` table; `now` is the clock
value stamped into `created_at` on insert.  Returns the updated table and
the created or updated record, or the thrown `NotFoundException`. -/
def addBookmark (events users : List Nat) (store : List EventUser)
    (userId eventId now : Nat) : Except NotFoundError (List EventUser × EventUser) :=
  if ! events.contains eventId then .error .eventNotFound
  else if ! users.contains userId then .error .userNotFound
  else
    match store.find? (matchesPair userId eventId) with
    | some eventUser =>
        .ok (updateFirst (matchesPair userId eventId)
              (fun r => { r with isFavorite := true }) store,
            { eventUser with isFavorite := true })
    | none =>
        let created : EventUser :=
          { userId := userId, eventId := eventId, isFavorite := true,
            hasJoined := false, createdAt := now }
        .ok (store ++ [created], created)

/-- Embedding of `BookmarksService.removeBookmark(userId, eventId)`: fetch the favorite
row for the pair; absent means `false` with the table unchanged; present
with `hasJoined` means downgrade `isFavorite` to false; present without
`hasJoined` means delete the row; `true` is returned whenever a row was
found. -/
def removeBookmark (store : List EventUser) (userId eventId : Nat) :
    List EventUser × Bool :=
  match store.find? (favoriteRow userId eventId) with
  | none => (store, false)
  | some eventUser =>
      if eventUser.hasJoined then
        (updateFirst (favoriteRow userId eventId)
          (fun r => { r with isFavorite := false }) store, true)
      else
        (removeFirst (favoriteRow userId eventId) store, true)

/-- One ledger call, as used in sequences of operations. -/
inductive LedgerOp where
  | add (userId eventId : Nat)
  | remove (userId eventId : Nat)
  deriving Repr, DecidableEq

/-- Effect of one ledger call on the stored rows.  A thrown `NotFound`
leaves the table unchanged.  The clock value is irrelevant to the stored
flags, so the step fixes it at 0. -/
def applyOp (events users : List Nat) (store : List EventUser) :
    LedgerOp → List EventUser
  | .add u e =>
      match addBookmark events users store u e 0 with
      | .ok (store', _) => store'
      | .error _ => store
  | .remove u e => (removeBookmark store u e).1

/-- Table reached after a sequence of ledger calls. -/
def runOps (events users : List Nat) (store : List EventUser) :
    List LedgerOp → List EventUser
  | [] => store
  | op :: ops => runOps events users (applyOp events users store op) ops

/-- Number of stored participation rows for the pair. -/
def pairCount (userId eventId : Nat) (store : List EventUser) : Nat :=
  store.countP (matchesPair userId eventId)

/-- Central invariant of the spec: no stored row has both flags false. -/
def noAllFalse (store : List EventUser) : Bool :=
  store.all (fun r => r.isFavorite || r.hasJoined)

/-- One row of the `events` table, restricted to the columns the query
engine reads (`type`, `subtype`, `city`, the date bounds) plus identity. -/
structure Event where
  id : Nat
  title : String
  city : String
  type : String
  subtype : String
  startDate : Nat
  endDate : Nat
  deriving Repr, DecidableEq

/-- Options record `GetEventsOptions`: the optional filter and pagination fields of
`EventsService.getAll`; an absent field is `none`. -/
structure GetEventsOptions where
  page : Option Nat := none
  limit : Option Nat := none
  type : Option String := none
  subtype : Option String := none
  city : Option String := none
  startDate : Option Nat := none
  endDate : Option Nat := none
  userId : Option Nat := none
  deriving Repr, DecidableEq

/-- ASCII lowering of one character, the character-level model of the
case folding SQL `ILIKE` performs. -/
def lowerChar (c : Char) : Char :=
  if 65 ≤ c.toNat ∧ c.toNat ≤ 90 then Char.ofNat (c.toNat + 32) else c

/-- Case folding of a whole string's characters. -/
def asciiLower (l : List Char) : List Char :=
  l.map lowerChar

/-- Whitespace test used by the model of JavaScript string trimming. -/
def isSpace (c : Char) : Bool :=
  c == ' ' || c == '\t' || c == '\n' || c == '\r'

/-- Model of JavaScript `String.prototype.trim` (`city.trim()` in `getAll`):
strip leading and trailing whitespace. -/
def trimChars (l : List Char) : List Char :=
  ((l.dropWhile isSpace).reverse.dropWhile isSpace).reverse

/-- Substring test: the model of SQL `ILIKE '%needle%'` on case-folded
character lists. -/
def containsSub (haystack needle : List Char) : Bool :=
  match haystack with
  | [] => needle.isEmpty
  | c :: t => needle.isPrefixOf (c :: t) || containsSub t needle

/-- City clause of `getAll`: exact match on the trimmed city
(`where('city', normalizedCity)`) or case-insensitive substring match
(`orWhereILike('city', '%normalizedCity%')`). -/
def cityFilter (city : String) (e : Event) : Bool :=
  let normalizedCity := trimChars city.data
  e.city.data == normalizedCity ||
    containsSub (asciiLower e.city.data) (asciiLower normalizedCity)

/-- Conjunction of the WHERE clauses `getAll` pushes onto the query.  Each
clause is guarded by JavaScript truthiness of its option (`if (type)` …),
so an absent field and the empty string both apply no predicate. -/
def eventMatches (options : GetEventsOptions) (e : Event) : Bool :=
  (match options.type with
   | some t => if t = "" then true else e.type == t
   | none => true) &&
  (match options.subtype with
   | some s => if s = "" then true else e.subtype == s
   | none => true) &&
  (match options.city with
   | some c => if c = "" then true else cityFilter c e
   | none => true) &&
  (match options.startDate with
   | some d => decide (d ≤ e.startDate)
   | none => true) &&
  (match options.endDate with
   | some d => decide (e.endDate ≤ d)
   | none => true)

/-- Paginated result as the ORM paginator exposes it to the controller. -/
structure Paginated (α : Type) where
  data : List α
  total : Nat
  perPage : Nat
  currentPage : Nat
  lastPage : Nat
  firstPage : Nat
  hasPages : Bool
  hasMorePages : Bool
  isEmpty : Bool
  deriving Repr, DecidableEq

/-- Modelled from the spec: `.paginate(page, limit)` is supplied by the ORM
(external to the repository).  It returns the rows of the requested
1-indexed page (OFFSET `(page-1)*limit`, LIMIT `limit`) along with the meta
fields the spec lists: total count, page size, current page, last page,
first page, whether pages / more pages exist, and whether the returned page
is empty. -/
def paginate {α : Type} (page limit : Nat) (rows : List α) : Paginated α :=
  let total := rows.length
  let data := (rows.drop ((page - 1) * limit)).take limit
  let lastPage := max ((total + limit - 1) / limit) 1
  { data := data
    total := total
    perPage := limit
    currentPage := page
    lastPage := lastPage
    firstPage := 1
    hasPages := decide (page ≠ 1) || decide (page < lastPage)
    hasMorePages := decide (page < lastPage)
    isEmpty := data.isEmpty }

/-- Event row as returned by the listing, with the preloaded `participants`
relation (the given user's participation rows for that event) when a truthy
`userId` was supplied. -/
structure AnnotatedEvent where
  event : Event
  participants : List EventUser
  deriving Repr, DecidableEq

/-- Preload of the `participants` relation performed by `getAll` when a
truthy `userId` option is present (`if (userId)` — the number 0 is falsy):
attach the user's participation rows for the event. -/
def annotate (store : List EventUser) (userIdOpt : Option Nat) (e : Event) :
    AnnotatedEvent :=
  { event := e
    participants :=
      match userIdOpt with
      | some u =>
          if u = 0 then []
          else store.filter (fun r => r.userId == u && r.eventId == e.id)
      | none => [] }

/-- Ordering relation of `getAll`'s `orderBy('startDate', 'asc')`. -/
def byStartDate (a b : Event) : Prop :=
  a.startDate ≤ b.startDate

instance : DecidableRel byStartDate :=
  fun a b => Nat.decLe a.startDate b.startDate

instance : IsTotal Event byStartDate :=
  ⟨fun a b => Nat.le_total a.startDate b.startDate⟩

instance : IsTrans Event byStartDate :=
  ⟨fun _ _ _ h h' => Nat.le_trans h h'⟩

/-- Embedding of `EventsService.getAll(options)`: defaults `page = 1` and `limit = 20`
for absent fields, caps the effective limit at `maxLimit = 100`, applies the
truthiness-guarded filters, preloads the `participants` relation when a
truthy `userId` is given (`if (userId)` — the number 0 is falsy), orders by
start date ascending, and paginates. -/
def getAll (events : List Event) (store : List EventUser)
    (options : GetEventsOptions) : Paginated AnnotatedEvent :=
  let page := options.page.getD 1
  let limit := options.limit.getD 20
  let maxLimit := 100
  let safeLimit := min limit maxLimit
  let filtered := events.filter (eventMatches options)
  let ordered := List.insertionSort byStartDate filtered
  let annotated := ordered.map (annotate store options.userId)
  paginate page safeLimit annotated

/-- JSON envelope of `GetEventsController.handle`'s success path. -/
structure EventsEnvelope where
  message : String
  data : List AnnotatedEvent
  total : Nat
  perPage : Nat
  currentPage : Nat
  lastPage : Nat
  firstPage : Nat
  hasPages : Bool
  hasMorePages : Bool
  isEmpty : Bool
  deriving Repr, DecidableEq

/-- Happy path of `GetEventsController.handle`: run `getAll` and copy the
paginator's rows and meta fields verbatim into the response envelope. -/
def getEventsResponse (events : List Event) (store : List EventUser)
    (options : GetEventsOptions) : EventsEnvelope :=
  let p := getAll events store options
  { message := "Events retrieved successfully"
    data := p.data
    total := p.total
    perPage := p.perPage
    currentPage := p.currentPage
    lastPage := p.lastPage
    firstPage := p.firstPage
    hasPages := p.hasPages
    hasMorePages := p.hasMorePages
    isEmpty := p.isEmpty }

/-- Ordering relation of `getUserBookmarks`'s
`orderBy('event_users.created_at', 'desc')` on joined (event, row) pairs. -/
def byBookmarkTimeDesc (a b : Event × EventUser) : Prop :=
  b.2.createdAt ≤ a.2.createdAt

instance : DecidableRel byBookmarkTimeDesc :=
  fun a b => Nat.decLe b.2.createdAt a.2.createdAt

instance : IsTotal (Event × EventUser) byBookmarkTimeDesc :=
  ⟨fun a b => Nat.le_total b.2.createdAt a.2.createdAt⟩

instance : IsTrans (Event × EventUser) byBookmarkTimeDesc :=
  ⟨fun _ _ _ h h' => Nat.le_trans h' h⟩

/-- Row predicate of the bookmarks join for one event id: the join clause
`events.id = event_users.event_id` specialized to the event, together with
`where('event_users.user_id', userId)` and
`where('event_users.is_favorite', true)`. -/
def favForEvent (userId eventId : Nat) (r : EventUser) : Bool :=
  r.eventId == eventId && r.userId == userId && r.isFavorite

/-- Embedding of `BookmarksService.getUserBookmarks(userId, page, limit)`: join events to
the user's favorite participation rows
(`join('event_users', 'events.id', 'event_users.event_id')` with
`where('event_users.user_id', userId)` and
`where('event_users.is_favorite', true)`), order by the participation row's
`created_at` descending, and paginate. -/
def getUserBookmarks (events : List Event) (store : List EventUser)
    (userId page limit : Nat) : Paginated Event :=
  let joined := events.flatMap (fun e =>
    (store.filter (favForEvent userId e.id)).map (fun r => (e, r)))
  let ordered := List.insertionSort byBookmarkTimeDesc joined
  paginate page limit (ordered.map (fun x => x.1))

/-- Creation time of the favorite participation row linking `userId` to the
event with id `eventId` (0 when there is none). -/
def bookmarkTime (store : List EventUser) (userId eventId : Nat) : Nat :=
  match store.find? (favForEvent userId eventId) with
  | some r => r.createdAt
  | none => 0

/-- Failure of the relational store itself. -/
inductive StoreError where
  | uniqueViolation
  deriving Repr, DecidableEq

/-- Failure surfaced by a ledger call: a thrown `NotFoundException`, or a
store error that escaped unhandled. -/
inductive LedgerFailure where
  | notFound (e : NotFoundError)
  | storeFail (e : StoreError)
  deriving Repr, DecidableEq

/-- Embedding of `EventUser.create` against a table carrying the migration's unique
constraint on `(user_id, event_id)`: inserting a second row for a pair
fails with a constraint violation instead of inserting. -/
def dbCreate (store : List EventUser) (row : EventUser) :
    Except StoreError (List EventUser) :=
  if store.any (matchesPair row.userId row.eventId) then .error .uniqueViolation
  else .ok (store ++ [row])

/-- Embedding of `addBookmark` with the check/create race window explicit:
`interference` holds the rows committed by concurrent requests between this
call's existence check (which sees `store`) and its write (which runs
against `store ++ interference`).  The service wraps no handler around
`EventUser.create`, so a constraint violation thrown by the store
propagates to the caller unchanged. -/
def addBookmarkRaced (events users : List Nat) (store interference : List EventUser)
    (userId eventId now : Nat) : Except LedgerFailure (List EventUser × EventUser) :=
  if ! events.contains eventId then .error (.notFound .eventNotFound)
  else if ! users.contains userId then .error (.notFound .userNotFound)
  else
    match store.find? (matchesPair userId eventId) with
    | some eventUser =>
        .ok (updateFirst (matchesPair userId eventId)
              (fun r => { r with isFavorite := true }) (store ++ interference),
            { eventUser with isFavorite := true })
    | none =>
        let created : EventUser :=
          { userId := userId, eventId := eventId, isFavorite := true,
            hasJoined := false, createdAt := now }
        match dbCreate (store ++ interference) created with
        | .ok store' => .ok (store', created)
        | .error err => .error (.storeFail err)

/-! ### Lemmas about the fetch/save embedding -/

theorem find?_decomp {p : EventUser → Bool} {l : List EventUser} {r : EventUser}
    (h : l.find? p = some r) :
    ∃ l₁ l₂, l = l₁ ++ r :: l₂ ∧ (∀ x ∈ l₁, p x = false) ∧ p r = true := by
  induction l with
  | nil => simp at h
  | cons a t ih =>
    cases ha : p a with
    | true =>
      rw [List.find?_cons_of_pos _ ha] at h
      cases h
      refine ⟨[], t, rfl, ?_, ha⟩
      intro x hx
      cases hx
    | false =>
      rw [List.find?_cons_of_neg _ (by simp [ha])] at h
      obtain ⟨l₁, l₂, h1, h2, h3⟩ := ih h
      refine ⟨a :: l₁, l₂, by rw [h1]; rfl, ?_, h3⟩
      intro x hx
      rcases List.mem_cons.mp hx with hx | hx
      · exact hx ▸ ha
      · exact h2 x hx

theorem updateFirst_append {p : EventUser → Bool} {f : EventUser → EventUser}
    {l₁ l₂ : List EventUser} {r : EventUser}
    (h1 : ∀ x ∈ l₁, p x = false) (hr : p r = true) :
    updateFirst p f (l₁ ++ r :: l₂) = l₁ ++ f r :: l₂ := by
  induction l₁ with
  | nil => simp [updateFirst, hr]
  | cons a t ih =>
    have ha := h1 a (List.mem_cons_self a t)
    simp only [List.cons_append, updateFirst, ha, Bool.false_eq_true, if_false,
      List.cons.injEq, true_and]
    exact ih fun x hx => h1 x (List.mem_cons_of_mem a hx)

theorem removeFirst_append {p : EventUser → Bool}
    {l₁ l₂ : List EventUser} {r : EventUser}
    (h1 : ∀ x ∈ l₁, p x = false) (hr : p r = true) :
    removeFirst p (l₁ ++ r :: l₂) = l₁ ++ l₂ := by
  induction l₁ with
  | nil => simp [removeFirst, hr]
  | cons a t ih =>
    have ha := h1 a (List.mem_cons_self a t)
    simp only [List.cons_append, removeFirst, ha, Bool.false_eq_true, if_false,
      List.cons.injEq, true_and]
    exact ih fun x hx => h1 x (List.mem_cons_of_mem a hx)

theorem countP_updateFirst (p q : EventUser → Bool) (f : EventUser → EventUser)
    (hq : ∀ r, q (f r) = q r) (l : List EventUser) :
    (updateFirst p f l).countP q = l.countP q := by
  induction l with
  | nil => rfl
  | cons a t ih =>
    by_cases hp : p a
    · simp [updateFirst, hp, List.countP_cons, hq]
    · simp [updateFirst, hp, List.countP_cons, ih]

theorem removeFirst_sublist (p : EventUser → Bool) (l : List EventUser) :
    (removeFirst p l).Sublist l := by
  induction l with
  | nil => simp [removeFirst]
  | cons a t ih =>
    by_cases hp : p a
    · simpa [removeFirst, hp] using List.sublist_cons_self a t
    · simpa [removeFirst, hp] using List.Sublist.cons₂ a ih

theorem matchesPair_update_true (u e : Nat) (r : EventUser) :
    matchesPair u e { r with isFavorite := true } = matchesPair u e r := rfl

theorem matchesPair_update_false (u e : Nat) (r : EventUser) :
    matchesPair u e { r with isFavorite := false } = matchesPair u e r := rfl


/-! ### Case analyses of the two ledger calls -/

theorem addBookmark_ok_cases {events users : List Nat} {st : List EventUser}
    {v f now : Nat} {st' : List EventUser} {rec : EventUser}
    (hok : addBookmark events users st v f now = .ok (st', rec)) :
    (∃ r, st.find? (matchesPair v f) = some r ∧
        st' = updateFirst (matchesPair v f)
          (fun x => { x with isFavorite := true }) st ∧
        rec = { r with isFavorite := true }) ∨
      (st.find? (matchesPair v f) = none ∧
        rec = { userId := v, eventId := f, isFavorite := true,
                hasJoined := false, createdAt := now } ∧
        st' = st ++ [rec]) := by
  by_cases he : events.contains f
  · by_cases hu : users.contains v
    · cases hf : st.find? (matchesPair v f) with
      | some r =>
        simp only [addBookmark, he, hu, hf, Bool.not_true, Bool.false_eq_true,
          if_false, Except.ok.injEq, Prod.mk.injEq] at hok
        exact Or.inl ⟨r, rfl, hok.1.symm, hok.2.symm⟩
      | none =>
        simp only [addBookmark, he, hu, hf, Bool.not_true, Bool.false_eq_true,
          if_false, Except.ok.injEq, Prod.mk.injEq] at hok
        refine Or.inr ⟨rfl, hok.2.symm, ?_⟩
        rw [← hok.2]
        exact hok.1.symm
    · have hu' : users.contains v = false := by simpa using hu
      simp only [addBookmark, he, hu', Bool.not_true, Bool.not_false,
        Bool.false_eq_true, eq_self_iff_true, if_false, if_true] at hok
      exact Except.noConfusion hok
  · have he' : events.contains f = false := by simpa using he
    simp only [addBookmark, he', Bool.not_true, Bool.not_false,
      Bool.false_eq_true, eq_self_iff_true, if_false, if_true] at hok
    exact Except.noConfusion hok

theorem addBookmark_error_cases {events users : List Nat} {st : List EventUser}
    {v f now : Nat} :
    (events.contains f = false →
      addBookmark events users st v f now = .error .eventNotFound) ∧
    (events.contains f = true → users.contains v = false →
      addBookmark events users st v f now = .error .userNotFound) := by
  constructor
  · intro he
    simp only [addBookmark, he, Bool.not_false, eq_self_iff_true, if_true]
  · intro he hu
    simp only [addBookmark, he, hu, Bool.not_true, Bool.not_false,
      Bool.false_eq_true, eq_self_iff_true, if_false, if_true]

theorem removeBookmark_none {st : List EventUser} {v f : Nat}
    (hf : st.find? (favoriteRow v f) = none) :
    removeBookmark st v f = (st, false) := by
  simp [removeBookmark, hf]

theorem removeBookmark_joined {st : List EventUser} {v f : Nat} {r : EventUser}
    (hf : st.find? (favoriteRow v f) = some r) (hj : r.hasJoined = true) :
    removeBookmark st v f =
      (updateFirst (favoriteRow v f) (fun x => { x with isFavorite := false }) st,
        true) := by
  simp [removeBookmark, hf, hj]

theorem removeBookmark_unjoined {st : List EventUser} {v f : Nat} {r : EventUser}
    (hf : st.find? (favoriteRow v f) = some r) (hj : r.hasJoined = false) :
    removeBookmark st v f = (removeFirst (favoriteRow v f) st, true) := by
  simp [removeBookmark, hf, hj]

/-! ### Step preservation of the two ledger invariants -/

theorem pairCount_addBookmark_le {events users : List Nat} {st : List EventUser}
    {v f now : Nat} {st' : List EventUser} {rec : EventUser}
    (hok : addBookmark events users st v f now = .ok (st', rec))
    (u e : Nat) (h : pairCount u e st ≤ 1) : pairCount u e st' ≤ 1 := by
  rcases addBookmark_ok_cases hok with ⟨r, _, hst, _⟩ | ⟨hf, hrec, hst⟩
  · rw [hst, pairCount,
      countP_updateFirst _ _ _ (matchesPair_update_true u e)]
    exact h
  · rw [hst, pairCount, List.countP_append]
    by_cases hpair : matchesPair u e rec = true
    · have huv : v = u ∧ f = e := by
        rw [hrec] at hpair
        simpa [matchesPair] using hpair
      have hzero : st.countP (matchesPair u e) = 0 := by
        rw [List.countP_eq_zero]
        intro a ha
        have := List.find?_eq_none.mp hf a ha
        rwa [huv.1, huv.2] at this
      simp [hzero, List.countP_cons, hpair]
    · have hone : List.countP (matchesPair u e) [rec] = 0 := by
        simp [List.countP_cons, hpair]
      rw [hone, Nat.add_zero]
      exact h

theorem pairCount_removeBookmark_le (st : List EventUser) (v f : Nat)
    (u e : Nat) (h : pairCount u e st ≤ 1) :
    pairCount u e (removeBookmark st v f).1 ≤ 1 := by
  cases hf : st.find? (favoriteRow v f) with
  | none => rw [removeBookmark_none hf]; exact h
  | some r =>
    by_cases hj : r.hasJoined
    · rw [removeBookmark_joined hf hj, pairCount,
        countP_updateFirst _ _ _ (matchesPair_update_false u e)]
      exact h
    · rw [removeBookmark_unjoined hf (by simpa using hj)]
      exact le_trans
        (List.Sublist.countP_le _ (removeFirst_sublist (favoriteRow v f) st)) h

theorem noAllFalse_sublist {l₁ l₂ : List EventUser} (hs : l₁.Sublist l₂)
    (h : noAllFalse l₂ = true) : noAllFalse l₁ = true := by
  rw [noAllFalse, List.all_eq_true] at *
  exact fun x hx => h x (hs.subset hx)

theorem noAllFalse_addBookmark {events users : List Nat} {st : List EventUser}
    {v f now : Nat} {st' : List EventUser} {rec : EventUser}
    (hok : addBookmark events users st v f now = .ok (st', rec))
    (h : noAllFalse st = true) : noAllFalse st' = true := by
  rcases addBookmark_ok_cases hok with ⟨r, hf, hst, _⟩ | ⟨_, hrec, hst⟩
  · obtain ⟨l₁, l₂, hdec, hfail, hp⟩ := find?_decomp hf
    rw [hst, hdec, updateFirst_append hfail hp]
    rw [hdec] at h
    rw [noAllFalse, List.all_eq_true] at *
    intro x hx
    rcases List.mem_append.mp hx with hx | hx
    · exact h x (List.mem_append.mpr (Or.inl hx))
    · rcases List.mem_cons.mp hx with hx | hx
      · rw [hx]
        simp
      · exact h x (List.mem_append.mpr (Or.inr (List.mem_cons_of_mem _ hx)))
  · rw [hst, noAllFalse, List.all_eq_true]
    intro x hx
    rcases List.mem_append.mp hx with hx | hx
    · exact (List.all_eq_true.mp h) x hx
    · rcases List.mem_cons.mp hx with hx | hx
      · rw [hx, hrec]
        simp
      · cases hx
    
theorem noAllFalse_removeBookmark (st : List EventUser) (v f : Nat)
    (h : noAllFalse st = true) : noAllFalse (removeBookmark st v f).1 = true := by
  cases hf : st.find? (favoriteRow v f) with
  | none => rw [removeBookmark_none hf]; exact h
  | some r =>
    by_cases hj : r.hasJoined
    · rw [removeBookmark_joined hf hj]
      obtain ⟨l₁, l₂, hdec, hfail, hp⟩ := find?_decomp hf
      rw [hdec, updateFirst_append hfail hp]
      rw [hdec] at h
      rw [noAllFalse, List.all_eq_true] at *
      intro x hx
      rcases List.mem_append.mp hx with hx | hx
      · exact h x (List.mem_append.mpr (Or.inl hx))
      · rcases List.mem_cons.mp hx with hx | hx
        · rw [hx]
          simp [hj]
        · exact h x (List.mem_append.mpr (Or.inr (List.mem_cons_of_mem _ hx)))
    · rw [removeBookmark_unjoined hf (by simpa using hj)]
      exact noAllFalse_sublist (removeFirst_sublist (favoriteRow v f) st) h

theorem ledger_step_invariant (events users : List Nat) (st : List EventUser)
    (u e : Nat) (op : LedgerOp)
    (h1 : pairCount u e st ≤ 1) (h2 : noAllFalse st = true) :
    pairCount u e (applyOp events users st op) ≤ 1 ∧
      noAllFalse (applyOp events users st op) = true := by
  cases op with
  | add v f =>
    cases hres : addBookmark events users st v f 0 with
    | ok res =>
      cases res with
      | mk st' rec =>
        have hst : applyOp events users st (.add v f) = st' := by
          simp [applyOp, hres]
        rw [hst]
        exact ⟨pairCount_addBookmark_le hres u e h1,
          noAllFalse_addBookmark hres h2⟩
    | error err =>
      have hst : applyOp events users st (.add v f) = st := by
        simp [applyOp, hres]
      rw [hst]
      exact ⟨h1, h2⟩
  | remove v f =>
    exact ⟨pairCount_removeBookmark_le st v f u e h1,
      noAllFalse_removeBookmark st v f h2⟩

theorem runOps_invariant (events users : List Nat) (u e : Nat) :
    ∀ (ops : List LedgerOp) (st : List EventUser),
      pairCount u e st ≤ 1 → noAllFalse st = true →
      pairCount u e (runOps events users st ops) ≤ 1 ∧
        noAllFalse (runOps events users st ops) = true := by
  intro ops
  induction ops with
  | nil => exact fun st h1 h2 => ⟨h1, h2⟩
  | cons op ops ih =>
    intro st h1 h2
    have step := ledger_step_invariant events users st u e op h1 h2
    exact ih _ step.1 step.2

/-- C1: for every user `u` and event `e` and every sequence of
`addBookmark` / `removeBookmark` calls starting from a store with no
participation row for `(u, e)` (and satisfying the ledger's standing
no-all-false invariant), at most one participation row for `(u, e)` exists
afterwards and no stored row has both `isFavorite = false` and
`hasJoined = false`.  Every intermediate point of a sequence is `runOps` of
one of its prefixes, and `ops` ranges over all sequences, so the statement
covers every intermediate store as well. -/
theorem bookmarks_pair_unique_and_no_all_false (u e : Nat)
    (events users : List Nat) (st : List EventUser) (ops : List LedgerOp)
    (h0 : pairCount u e st = 0) (hinv : noAllFalse st = true) :
    pairCount u e (runOps events users st ops) ≤ 1 ∧
      noAllFalse (runOps events users st ops) = true :=
  runOps_invariant events users u e ops st (by simp [h0]) hinv

/-- Witness for C1 at a concrete store and call sequence. -/
theorem bookmarks_pair_unique_and_no_all_false_witness :
    pairCount 1 1 (runOps [1] [1] []
        [.add 1 1, .add 1 1, .remove 1 1, .add 1 1]) ≤ 1 ∧
      noAllFalse (runOps [1] [1] []
        [.add 1 1, .add 1 1, .remove 1 1, .add 1 1]) = true :=
  bookmarks_pair_unique_and_no_all_false 1 1 [1] [1] []
    [.add 1 1, .add 1 1, .remove 1 1, .add 1 1] (by decide) (by decide)

theorem find?_append_cons {p : EventUser → Bool} {l₁ l₂ : List EventUser}
    {r : EventUser} (h1 : ∀ x ∈ l₁, p x = false) (hr : p r = true) :
    List.find? p (l₁ ++ r :: l₂) = some r := by
  induction l₁ with
  | nil => exact List.find?_cons_of_pos _ hr
  | cons a t ih =>
    rw [List.cons_append,
      List.find?_cons_of_neg _ (by simp [h1 a (List.mem_cons_self a t)])]
    exact ih fun x hx => h1 x (List.mem_cons_of_mem a hx)

/-- C7: `addBookmark` is idempotent — when user and event both exist, a
first call succeeds with some store `st₁` and record `r₁`, and a second
call (at any later clock) returns the very same store and record, so two
calls in sequence leave the same observable store state as one. -/
theorem addBookmark_idempotent (events users : List Nat) (st : List EventUser)
    (u e now now' : Nat) (he : events.contains e = true)
    (hu : users.contains u = true) :
    ∃ st₁ r₁, addBookmark events users st u e now = .ok (st₁, r₁) ∧
      addBookmark events users st₁ u e now' = .ok (st₁, r₁) := by
  cases hf : st.find? (matchesPair u e) with
  | some r =>
    obtain ⟨l₁, l₂, hdec, hfail, hp⟩ := find?_decomp hf
    have hok1 : addBookmark events users st u e now =
        .ok (updateFirst (matchesPair u e)
              (fun x => { x with isFavorite := true }) st,
            { r with isFavorite := true }) := by
      simp only [addBookmark, he, hu, hf, Bool.not_true, Bool.false_eq_true,
        if_false]
    have hst1 : updateFirst (matchesPair u e)
        (fun x => { x with isFavorite := true }) st =
        l₁ ++ { r with isFavorite := true } :: l₂ := by
      rw [hdec]
      exact updateFirst_append hfail hp
    have hf2 : List.find? (matchesPair u e)
        (l₁ ++ { r with isFavorite := true } :: l₂) =
        some { r with isFavorite := true } :=
      find?_append_cons hfail hp
    refine ⟨l₁ ++ { r with isFavorite := true } :: l₂,
      { r with isFavorite := true }, by rw [hok1, hst1], ?_⟩
    have hok2 : addBookmark events users
        (l₁ ++ { r with isFavorite := true } :: l₂) u e now' =
        .ok (updateFirst (matchesPair u e)
              (fun x => { x with isFavorite := true })
              (l₁ ++ { r with isFavorite := true } :: l₂),
            { r with isFavorite := true }) := by
      simp only [addBookmark, he, hu, hf2, Bool.not_true, Bool.false_eq_true,
        if_false]
    rw [hok2, updateFirst_append (r := { r with isFavorite := true }) hfail hp]
  | none =>
    have hfailall : ∀ x ∈ st, matchesPair u e x = false := by
      intro x hx
      simpa using List.find?_eq_none.mp hf x hx
    have hok1 : addBookmark events users st u e now =
        .ok (st ++ [{ userId := u, eventId := e, isFavorite := true,
                      hasJoined := false, createdAt := now }],
            { userId := u, eventId := e, isFavorite := true,
              hasJoined := false, createdAt := now }) := by
      simp only [addBookmark, he, hu, hf, Bool.not_true, Bool.false_eq_true,
        if_false]
    have hp : matchesPair u e
        { userId := u, eventId := e, isFavorite := true,
          hasJoined := false, createdAt := now } = true := by
      simp [matchesPair]
    have hf2 : List.find? (matchesPair u e)
        (st ++ [{ userId := u, eventId := e, isFavorite := true,
                  hasJoined := false, createdAt := now }]) =
        some { userId := u, eventId := e, isFavorite := true,
               hasJoined := false, createdAt := now } :=
      find?_append_cons hfailall hp
    refine ⟨_, _, hok1, ?_⟩
    simp only [addBookmark, he, hu, hf2, Bool.not_true, Bool.false_eq_true,
      if_false]
    rw [updateFirst_append hfailall hp]

/-- Witness for C7 at a concrete store. -/
theorem addBookmark_idempotent_witness :
    ∃ st₁ r₁, addBookmark [1] [1] [] 1 1 0 = .ok (st₁, r₁) ∧
      addBookmark [1] [1] st₁ 1 1 3 = .ok (st₁, r₁) :=
  addBookmark_idempotent [1] [1] [] 1 1 0 3 (by decide) (by decide)

/-- C2: `addBookmark(userId, eventId)` fails with NotFound when the event
(or, the event existing, the user) does not exist; otherwise it succeeds,
leaving exactly one participation record for the pair: the existing record
with `isFavorite` set to true and `hasJoined` unchanged when one existed,
or a freshly created record with `isFavorite = true, hasJoined = false`
appended to the store when none did.  The hypothesis that at most one
record for the pair existed before the call is the unique constraint of
the `event_users` table. -/
theorem addBookmark_functional_spec (events users : List Nat)
    (st : List EventUser) (u e now : Nat) (hcount : pairCount u e st ≤ 1) :
    (events.contains e = false →
      addBookmark events users st u e now = .error .eventNotFound) ∧
    (events.contains e = true → users.contains u = false →
      addBookmark events users st u e now = .error .userNotFound) ∧
    (events.contains e = true → users.contains u = true →
      ∃ st' rec, addBookmark events users st u e now = .ok (st', rec) ∧
        st'.filter (matchesPair u e) = [rec] ∧
        rec.isFavorite = true ∧
        (∀ r, st.find? (matchesPair u e) = some r →
          rec.hasJoined = r.hasJoined) ∧
        (st.find? (matchesPair u e) = none →
          rec.hasJoined = false ∧ st' = st ++ [rec])) := by
  refine ⟨addBookmark_error_cases.1, addBookmark_error_cases.2, ?_⟩
  intro he hu
  cases hf : st.find? (matchesPair u e) with
  | some r =>
    obtain ⟨l₁, l₂, hdec, hfail, hp⟩ := find?_decomp hf
    have hok : addBookmark events users st u e now =
        .ok (updateFirst (matchesPair u e)
              (fun x => { x with isFavorite := true }) st,
            { r with isFavorite := true }) := by
      simp only [addBookmark, he, hu, hf, Bool.not_true, Bool.false_eq_true,
        if_false]
    have hl₁ : l₁.filter (matchesPair u e) = [] := by
      rw [List.filter_eq_nil_iff]
      intro a ha
      simp [hfail a ha]
    have hl₂c : l₂.countP (matchesPair u e) = 0 := by
      have h1 := hcount
      rw [pairCount, hdec, List.countP_append, List.countP_cons, if_pos hp] at h1
      omega
    have hl₂ : l₂.filter (matchesPair u e) = [] := by
      rw [List.filter_eq_nil_iff]
      intro a ha
      exact (List.countP_eq_zero.mp hl₂c) a ha
    refine ⟨_, _, hok, ?_, rfl, ?_, ?_⟩
    · rw [hdec, updateFirst_append hfail hp, List.filter_append, hl₁,
        List.filter_cons,
        if_pos (show matchesPair u e { r with isFavorite := true } = true
          from hp), hl₂]
      rfl
    · intro r' hr'
      injection hr' with hh
      rw [← hh]
    · intro hnone
      exact Option.noConfusion hnone
  | none =>
    have hok : addBookmark events users st u e now =
        .ok (st ++ [{ userId := u, eventId := e, isFavorite := true,
                      hasJoined := false, createdAt := now }],
            { userId := u, eventId := e, isFavorite := true,
              hasJoined := false, createdAt := now }) := by
      simp only [addBookmark, he, hu, hf, Bool.not_true, Bool.false_eq_true,
        if_false]
    have hnilf : st.filter (matchesPair u e) = [] := by
      rw [List.filter_eq_nil_iff]
      intro a ha
      exact List.find?_eq_none.mp hf a ha
    refine ⟨_, _, hok, ?_, rfl, ?_, fun _ => ⟨rfl, rfl⟩⟩
    · rw [List.filter_append, hnilf, List.filter_cons,
        if_pos (show matchesPair u e
          { userId := u, eventId := e, isFavorite := true,
            hasJoined := false, createdAt := now } = true
          by simp [matchesPair])]
      rfl
    · intro r' hr'
      exact Option.noConfusion hr'

/-- Witness for C2 on the empty store. -/
theorem addBookmark_functional_spec_witness :
    ∃ st' rec, addBookmark [1] [1] [] 1 1 5 = .ok (st', rec) ∧
      st'.filter (matchesPair 1 1) = [rec] ∧
      rec.isFavorite = true ∧
      (∀ r, List.find? (matchesPair 1 1) ([] : List EventUser) = some r →
        rec.hasJoined = r.hasJoined) ∧
      (List.find? (matchesPair 1 1) ([] : List EventUser) = none →
        rec.hasJoined = false ∧ st' = [] ++ [rec]) :=
  (addBookmark_functional_spec [1] [1] [] 1 1 5 (by decide)).2.2
    (by decide) (by decide)

/-- C3: `removeBookmark(userId, eventId)`: with no favorite record for the
pair it returns `false` and changes nothing; with a favorite record whose
`hasJoined` is true it keeps the row, now with `isFavorite = false`; with a
favorite record whose `hasJoined` is false it deletes the row entirely;
and it returns `true` exactly when the store changed.  The hypothesis that
at most one record for the pair exists is the unique constraint of the
`event_users` table. -/
theorem removeBookmark_functional_spec (st : List EventUser) (u e : Nat)
    (hcount : pairCount u e st ≤ 1) :
    (st.find? (favoriteRow u e) = none → removeBookmark st u e = (st, false)) ∧
    (∀ r, st.find? (favoriteRow u e) = some r → r.hasJoined = true →
      (removeBookmark st u e).2 = true ∧
      (removeBookmark st u e).1.filter (matchesPair u e) =
        [{ r with isFavorite := false }] ∧
      (removeBookmark st u e).1.length = st.length) ∧
    (∀ r, st.find? (favoriteRow u e) = some r → r.hasJoined = false →
      (removeBookmark st u e).2 = true ∧
      (removeBookmark st u e).1.filter (matchesPair u e) = [] ∧
      (removeBookmark st u e).1.length + 1 = st.length) ∧
    ((removeBookmark st u e).2 = true ↔ (removeBookmark st u e).1 ≠ st) := by
  refine ⟨fun h => removeBookmark_none h, ?_, ?_, ?_⟩
  · intro r hf hj
    rw [removeBookmark_joined hf hj]
    obtain ⟨l₁, l₂, hdec, hfail, hp⟩ := find?_decomp hf
    have hp' := hp
    rw [favoriteRow, Bool.and_eq_true] at hp'
    have hsplit := hcount
    rw [pairCount, hdec, List.countP_append, List.countP_cons,
      if_pos hp'.1] at hsplit
    have hl₁ : l₁.filter (matchesPair u e) = [] := by
      rw [List.filter_eq_nil_iff]
      intro a ha
      have hz : l₁.countP (matchesPair u e) = 0 := by omega
      exact (List.countP_eq_zero.mp hz) a ha
    have hl₂ : l₂.filter (matchesPair u e) = [] := by
      rw [List.filter_eq_nil_iff]
      intro a ha
      have hz : l₂.countP (matchesPair u e) = 0 := by omega
      exact (List.countP_eq_zero.mp hz) a ha
    refine ⟨rfl, ?_, ?_⟩
    · rw [hdec, updateFirst_append hfail hp, List.filter_append, hl₁,
        List.filter_cons,
        if_pos (show matchesPair u e { r with isFavorite := false } = true
          from hp'.1), hl₂]
      rfl
    · rw [hdec, updateFirst_append hfail hp]
      simp
  · intro r hf hj
    rw [removeBookmark_unjoined hf hj]
    obtain ⟨l₁, l₂, hdec, hfail, hp⟩ := find?_decomp hf
    have hp' := hp
    rw [favoriteRow, Bool.and_eq_true] at hp'
    have hsplit := hcount
    rw [pairCount, hdec, List.countP_append, List.countP_cons,
      if_pos hp'.1] at hsplit
    have hl₁ : l₁.filter (matchesPair u e) = [] := by
      rw [List.filter_eq_nil_iff]
      intro a ha
      have hz : l₁.countP (matchesPair u e) = 0 := by omega
      exact (List.countP_eq_zero.mp hz) a ha
    have hl₂ : l₂.filter (matchesPair u e) = [] := by
      rw [List.filter_eq_nil_iff]
      intro a ha
      have hz : l₂.countP (matchesPair u e) = 0 := by omega
      exact (List.countP_eq_zero.mp hz) a ha
    refine ⟨rfl, ?_, ?_⟩
    · rw [hdec, removeFirst_append hfail hp, List.filter_append, hl₁, hl₂]
      rfl
    · rw [hdec, removeFirst_append hfail hp]
      simp [List.length_append]
      omega
  · cases hf : st.find? (favoriteRow u e) with
    | none =>
      rw [removeBookmark_none hf]
      simp
    | some r =>
      obtain ⟨l₁, l₂, hdec, hfail, hp⟩ := find?_decomp hf
      have hp' := hp
      rw [favoriteRow, Bool.and_eq_true] at hp'
      by_cases hj : r.hasJoined
      · rw [removeBookmark_joined hf hj]
        constructor
        · intro _
          rw [hdec, updateFirst_append hfail hp]
          intro hcontra
          have htail := List.append_cancel_left hcontra
          have hhead : ({ r with isFavorite := false } : EventUser) = r :=
            (List.cons_eq_cons.mp htail).1
          have hflag : false = r.isFavorite :=
            congrArg EventUser.isFavorite hhead
          rw [hp'.2] at hflag
          exact Bool.noConfusion hflag
        · intro _
          rfl
      · rw [removeBookmark_unjoined hf (by simpa using hj)]
        constructor
        · intro _ hcontra
          have hlen : (removeFirst (favoriteRow u e) st).length = st.length :=
            congrArg List.length hcontra
          rw [hdec, removeFirst_append hfail hp] at hlen
          simp [List.length_append] at hlen
        · intro _
          rfl

/-- Witness for C3 on a store holding one favorite-and-joined row. -/
theorem removeBookmark_functional_spec_witness :
    (removeBookmark [⟨1, 1, true, true, 0⟩] 1 1).2 = true ∧
      (removeBookmark [⟨1, 1, true, true, 0⟩] 1 1).1.filter (matchesPair 1 1) =
        [⟨1, 1, false, true, 0⟩] ∧
      (removeBookmark [⟨1, 1, true, true, 0⟩] 1 1).1.length =
        ([⟨1, 1, true, true, 0⟩] : List EventUser).length :=
  (removeBookmark_functional_spec [⟨1, 1, true, true, 0⟩] 1 1 (by decide)).2.1
    ⟨1, 1, true, true, 0⟩ (by decide) (by decide)

/-- C4: contrary to the claim, the unique-constraint violation arising when
a concurrent request creates the pair's row between `addBookmark`'s
existence check and its create step is not recovered by re-reading and
updating: the service wraps no handler around `EventUser.create`, so the
raw store error surfaces to the caller.  Concretely, with user 1 and event
1 both existing, a store empty at check time, and the pair's row committed
concurrently inside the race window, the call returns the raw constraint
violation instead of an `ok` result. -/
theorem addBookmark_race_surfaces_constraint_violation :
    addBookmarkRaced [1] [1] [] [⟨1, 1, true, false, 3⟩] 1 1 7 =
      .error (.storeFail .uniqueViolation) := rfl

/-- C5: the listing uses page 1 and page size 20 when those options are
absent, the effective page size never exceeds 100, and any requested limit
above 100 (for example 1000) is clamped to a page size of exactly 100. -/
theorem getAll_pagination_defaults_and_ceiling (events : List Event)
    (store : List EventUser) (options : GetEventsOptions) :
    (options.page = none → (getAll events store options).currentPage = 1) ∧
    (options.limit = none → (getAll events store options).perPage = 20) ∧
    (getAll events store options).perPage ≤ 100 ∧
    (∀ l, options.limit = some l → 100 < l →
      (getAll events store options).perPage = 100) := by
  refine ⟨?_, ?_, ?_, ?_⟩
  · intro hp
    simp [getAll, paginate, hp]
  · intro hl
    simp [getAll, paginate, hl]
  · show min (options.limit.getD 20) 100 ≤ 100
    exact Nat.min_le_right _ _
  · intro l hl hgt
    show min (options.limit.getD 20) 100 = 100
    rw [hl]
    show min l 100 = 100
    exact Nat.min_eq_right (Nat.le_of_lt hgt)

/-- Witness for C5 at concrete option values. -/
theorem getAll_pagination_defaults_and_ceiling_witness :
    (getAll [] [] { limit := some 1000 }).currentPage = 1 ∧
      (getAll [] [] { page := some 2 }).perPage = 20 ∧
      (getAll [] [] { limit := some 1000 }).perPage = 100 :=
  ⟨(getAll_pagination_defaults_and_ceiling [] [] { limit := some 1000 }).1 rfl,
    (getAll_pagination_defaults_and_ceiling [] [] { page := some 2 }).2.1 rfl,
    (getAll_pagination_defaults_and_ceiling [] []
      { limit := some 1000 }).2.2.2 1000 rfl (by decide)⟩

theorem paginate_total_zero {α : Type} (page limit : Nat) (rows : List α)
    (h : (paginate page limit rows).total = 0) :
    (paginate page limit rows).isEmpty = true := by
  have hr : rows = [] := List.length_eq_zero.mp h
  subst hr
  simp [paginate]

theorem paginate_isEmpty_data {α : Type} (page limit : Nat) (rows : List α)
    (h : (paginate page limit rows).isEmpty = true) :
    (paginate page limit rows).data = [] :=
  List.isEmpty_iff.mp h

/-- C8: the pagination metadata the events controller returns is internally
consistent: a total of 0 forces the `isEmpty` flag, and the `isEmpty` flag
forces an empty data array (so a filter matching nothing yields an empty
page, a zero total and a raised `isEmpty` flag rather than an error). -/
theorem getEventsResponse_meta_consistent (events : List Event)
    (store : List EventUser) (options : GetEventsOptions) :
    ((getEventsResponse events store options).total = 0 →
      (getEventsResponse events store options).isEmpty = true) ∧
    ((getEventsResponse events store options).isEmpty = true →
      (getEventsResponse events store options).data = []) := by
  constructor
  · intro h0
    exact paginate_total_zero _ _ _ h0
  · intro hE
    exact paginate_isEmpty_data _ _ _ hE

/-- Witness for C8: a filter matching nothing gives total 0, `isEmpty`, and
an empty data array. -/
theorem getEventsResponse_meta_consistent_witness :
    (getEventsResponse [] [] { city := some "NoSuchCity" }).total = 0 ∧
      (getEventsResponse [] [] { city := some "NoSuchCity" }).isEmpty = true ∧
      (getEventsResponse [] [] { city := some "NoSuchCity" }).data = [] :=
  ⟨rfl,
    (getEventsResponse_meta_consistent [] [] { city := some "NoSuchCity" }).1 rfl,
    (getEventsResponse_meta_consistent [] [] { city := some "NoSuchCity" }).2
      ((getEventsResponse_meta_consistent [] []
        { city := some "NoSuchCity" }).1 rfl)⟩

/-- C10: at `getAll`'s own interface an empty-string filter value behaves
as the filter being absent: `type = ""`, `subtype = ""` and `city = ""`
each produce exactly the result of the corresponding omitted field,
because every WHERE clause is guarded by JavaScript truthiness and the
empty string is falsy — it applies no predicate and is no error here. -/
theorem getAll_empty_string_filter_inert (events : List Event)
    (store : List EventUser) (options : GetEventsOptions) :
    getAll events store { options with type := some "" } =
        getAll events store { options with type := none } ∧
    getAll events store { options with subtype := some "" } =
        getAll events store { options with subtype := none } ∧
    getAll events store { options with city := some "" } =
        getAll events store { options with city := none } := by
  refine ⟨?_, ?_, ?_⟩
  · have ht : eventMatches { options with type := some "" } =
        eventMatches { options with type := none } := by
      funext x
      simp [eventMatches]
    simp [getAll, ht]
  · have hs : eventMatches { options with subtype := some "" } =
        eventMatches { options with subtype := none } := by
      funext x
      simp [eventMatches]
    simp [getAll, hs]
  · have hc : eventMatches { options with city := some "" } =
        eventMatches { options with city := none } := by
      funext x
      simp [eventMatches]
    simp [getAll, hc]

/-! ### Lemmas about the event listing -/

theorem getAll_data_mem {events : List Event} {store : List EventUser}
    {options : GetEventsOptions} {ae : AnnotatedEvent}
    (h : ae ∈ (getAll events store options).data) :
    ae.event ∈ events ∧ eventMatches options ae.event = true := by
  have hsub : ((getAll events store options).data).Sublist
      ((List.insertionSort byStartDate
        (events.filter (eventMatches options))).map
        (annotate store options.userId)) :=
    (List.take_sublist _ _).trans (List.drop_sublist _ _)
  have hmem := hsub.subset h
  obtain ⟨e, he, hae⟩ := List.mem_map.mp hmem
  have he2 : e ∈ events.filter (eventMatches options) :=
    (List.perm_insertionSort byStartDate _).mem_iff.mp he
  have he3 := List.mem_filter.mp he2
  rw [← hae]
  exact ⟨he3.1, he3.2⟩

theorem eventMatches_components {options : GetEventsOptions} {e : Event}
    (h : eventMatches options e = true) :
    (∀ t, options.type = some t → t ≠ "" → e.type = t) ∧
    (∀ s, options.subtype = some s → s ≠ "" → e.subtype = s) ∧
    (∀ c, options.city = some c → c ≠ "" → cityFilter c e = true) ∧
    (∀ d, options.startDate = some d → d ≤ e.startDate) ∧
    (∀ d, options.endDate = some d → e.endDate ≤ d) := by
  simp only [eventMatches, Bool.and_eq_true] at h
  obtain ⟨⟨⟨⟨h1, h2⟩, h3⟩, h4⟩, h5⟩ := h
  refine ⟨?_, ?_, ?_, ?_, ?_⟩
  · intro t ht hne
    simp only [ht] at h1
    rw [if_neg hne] at h1
    exact eq_of_beq h1
  · intro s hs hne
    simp only [hs] at h2
    rw [if_neg hne] at h2
    exact eq_of_beq h2
  · intro c hc hne
    simp only [hc] at h3
    rw [if_neg hne] at h3
    exact h3
  · intro d hd
    simp only [hd] at h4
    exact of_decide_eq_true h4
  · intro d hd
    simp only [hd] at h5
    exact of_decide_eq_true h5

theorem cityFilter_cases {c : String} {e : Event} (h : cityFilter c e = true) :
    e.city.data = trimChars c.data ∨
      containsSub (asciiLower e.city.data)
        (asciiLower (trimChars c.data)) = true := by
  rw [cityFilter] at h
  cases (Bool.or_eq_true _ _).mp h with
  | inl h => exact Or.inl (eq_of_beq h)
  | inr h => exact Or.inr h

/-- C6: every event the listing returns satisfies all the provided filters
conjointly — the type and subtype equal the given values, the city equals
the trimmed city filter or contains it as a case-insensitive substring,
the start date is on or after `startDate`, and the end date is on or
before `endDate` — and the returned page is ordered ascending by start
date. -/
theorem getAll_filter_conjunction_and_order (events : List Event)
    (store : List EventUser) (options : GetEventsOptions) :
    (∀ ae ∈ (getAll events store options).data,
      (∀ t, options.type = some t → t ≠ "" → ae.event.type = t) ∧
      (∀ s, options.subtype = some s → s ≠ "" → ae.event.subtype = s) ∧
      (∀ c, options.city = some c → c ≠ "" →
        (ae.event.city.data = trimChars c.data ∨
          containsSub (asciiLower ae.event.city.data)
            (asciiLower (trimChars c.data)) = true)) ∧
      (∀ d, options.startDate = some d → d ≤ ae.event.startDate) ∧
      (∀ d, options.endDate = some d → ae.event.endDate ≤ d)) ∧
    List.Pairwise (fun a b : AnnotatedEvent =>
      a.event.startDate ≤ b.event.startDate)
      (getAll events store options).data := by
  constructor
  · intro ae hae
    obtain ⟨_, hm⟩ := getAll_data_mem hae
    obtain ⟨h1, h2, h3, h4, h5⟩ := eventMatches_components hm
    exact ⟨h1, h2, fun c hc hne => cityFilter_cases (h3 c hc hne), h4, h5⟩
  · have hpair : List.Pairwise (fun a b : AnnotatedEvent =>
        a.event.startDate ≤ b.event.startDate)
        ((List.insertionSort byStartDate
          (events.filter (eventMatches options))).map
          (annotate store options.userId)) := by
      rw [List.pairwise_map]
      exact (List.sorted_insertionSort byStartDate _).imp (fun h => h)
    have hsub : ((getAll events store options).data).Sublist
        ((List.insertionSort byStartDate
          (events.filter (eventMatches options))).map
          (annotate store options.userId)) :=
      (List.take_sublist _ _).trans (List.drop_sublist _ _)
    exact hpair.sublist hsub

/-- Witness for C6 at a concrete store: the single returned event carries
the requested type. -/
theorem getAll_filter_conjunction_and_order_witness :
    (⟨1, "a", "Toulouse", "concert", "rock", 5, 6⟩ : Event).type = "concert" :=
  ((getAll_filter_conjunction_and_order
      [⟨1, "a", "Toulouse", "concert", "rock", 5, 6⟩] []
      { type := some "concert", city := some "toulouse" }).1
    ⟨⟨1, "a", "Toulouse", "concert", "rock", 5, 6⟩, []⟩ (by decide)).1
    "concert" rfl (by decide)

/-! ### Lemmas about the bookmarks listing -/

theorem find?_eq_of_countP_le_one {p : EventUser → Bool} {l : List EventUser}
    {a : EventUser} (hc : l.countP p ≤ 1) (ha : a ∈ l) (hpa : p a = true) :
    l.find? p = some a := by
  induction l with
  | nil => cases ha
  | cons b t ih =>
    rcases List.mem_cons.mp ha with hab | hat
    · subst hab
      exact List.find?_cons_of_pos _ hpa
    · by_cases hpb : p b
      · exfalso
        rw [List.countP_cons, if_pos hpb] at hc
        have hpos : 0 < t.countP p := List.countP_pos_iff.mpr ⟨a, hat, hpa⟩
        omega
      · rw [List.find?_cons_of_neg _ (by simp [hpb])]
        refine ih ?_ hat
        rw [List.countP_cons, if_neg hpb] at hc
        simpa using hc

/-- C9: `getUserBookmarks(u, page, limit)` pages over exactly the events
having a favorite participation record for `u`: every returned event has
such a record (on any page), every stored event with such a record is
returned on page 1 whenever the page size covers the total, the rows are
ordered by the participation record's creation time descending (not by
event start date), `page` is 1-indexed, and `limit` bounds the page size.
The hypothesis of at most one favorite row per pair is the table's unique
constraint; it makes the per-event bookmark time well defined. -/
theorem getUserBookmarks_spec (events : List Event) (store : List EventUser)
    (u page limit : Nat)
    (huniq : ∀ e ∈ events, store.countP (favForEvent u e.id) ≤ 1) :
    (∀ ev ∈ (getUserBookmarks events store u page limit).data,
      ∃ r ∈ store, r.userId = u ∧ r.eventId = ev.id ∧ r.isFavorite = true) ∧
    (getUserBookmarks events store u page limit).data.length ≤ limit ∧
    (getUserBookmarks events store u page limit).currentPage = page ∧
    ((getUserBookmarks events store u 1 limit).total ≤ limit →
      ∀ ev ∈ events, (∃ r ∈ store, r.userId = u ∧ r.eventId = ev.id ∧
          r.isFavorite = true) →
        ev ∈ (getUserBookmarks events store u 1 limit).data) ∧
    List.Pairwise (fun a b : Event =>
        bookmarkTime store u b.id ≤ bookmarkTime store u a.id)
      (getUserBookmarks events store u page limit).data := by
  have hsub : ((getUserBookmarks events store u page limit).data).Sublist
      ((List.insertionSort byBookmarkTimeDesc (events.flatMap (fun e =>
        (store.filter (favForEvent u e.id)).map (fun r => (e, r))))).map
        (fun x => x.1)) :=
    (List.take_sublist _ _).trans (List.drop_sublist _ _)
  have hbt : ∀ x ∈ events.flatMap (fun e =>
      (store.filter (favForEvent u e.id)).map (fun r => (e, r))),
      bookmarkTime store u x.1.id = x.2.createdAt := by
    intro x hx
    obtain ⟨e, he, hx2⟩ := List.mem_flatMap.mp hx
    obtain ⟨r, hr, hx3⟩ := List.mem_map.mp hx2
    have hrf := List.mem_filter.mp hr
    rw [← hx3]
    show bookmarkTime store u e.id = r.createdAt
    rw [bookmarkTime, find?_eq_of_countP_le_one (huniq e he) hrf.1 hrf.2]
  refine ⟨?_, List.length_take_le _ _, rfl, ?_, ?_⟩
  · intro ev hev
    have hmem := hsub.subset hev
    obtain ⟨x, hx, hx1⟩ := List.mem_map.mp hmem
    have hxj : x ∈ events.flatMap (fun e =>
        (store.filter (favForEvent u e.id)).map (fun r => (e, r))) :=
      (List.perm_insertionSort byBookmarkTimeDesc _).subset hx
    obtain ⟨e, he, hx2⟩ := List.mem_flatMap.mp hxj
    obtain ⟨r, hr, hx3⟩ := List.mem_map.mp hx2
    have hrf := List.mem_filter.mp hr
    have hfav := hrf.2
    rw [favForEvent] at hfav
    simp only [Bool.and_eq_true] at hfav
    obtain ⟨⟨hbe, hbu⟩, hbf⟩ := hfav
    refine ⟨r, hrf.1, eq_of_beq hbu, ?_, hbf⟩
    have hxe : x.1 = e := by rw [← hx3]
    rw [← hx1, hxe]
    exact eq_of_beq hbe
  · rintro htot ev hev ⟨r, hr, hru, hre, hrf⟩
    have hpred : favForEvent u ev.id r = true := by
      rw [favForEvent]
      simp [hru, hre, hrf]
    have hrfilter : r ∈ store.filter (favForEvent u ev.id) :=
      List.mem_filter.mpr ⟨hr, hpred⟩
    have hj : (ev, r) ∈ events.flatMap (fun e =>
        (store.filter (favForEvent u e.id)).map (fun r' => (e, r'))) :=
      List.mem_flatMap.mpr ⟨ev, hev, List.mem_map.mpr ⟨r, hrfilter, rfl⟩⟩
    have ho : (ev, r) ∈ List.insertionSort byBookmarkTimeDesc
        (events.flatMap (fun e =>
          (store.filter (favForEvent u e.id)).map (fun r' => (e, r')))) :=
      ((List.perm_insertionSort byBookmarkTimeDesc _).symm).subset hj
    have hall : ev ∈ (List.insertionSort byBookmarkTimeDesc
        (events.flatMap (fun e =>
          (store.filter (favForEvent u e.id)).map (fun r' => (e, r'))))).map
        (fun x => x.1) :=
      List.mem_map.mpr ⟨(ev, r), ho, rfl⟩
    have hdata : (getUserBookmarks events store u 1 limit).data =
        (List.insertionSort byBookmarkTimeDesc
          (events.flatMap (fun e =>
            (store.filter (favForEvent u e.id)).map (fun r' => (e, r'))))).map
          (fun x => x.1) := by
      simp only [getUserBookmarks, paginate, Nat.sub_self, Nat.zero_mul,
        List.drop_zero]
      exact List.take_of_length_le htot
    rw [hdata]
    exact hall
  · have hpair : List.Pairwise (fun a b : Event =>
        bookmarkTime store u b.id ≤ bookmarkTime store u a.id)
        ((List.insertionSort byBookmarkTimeDesc (events.flatMap (fun e =>
          (store.filter (favForEvent u e.id)).map (fun r => (e, r))))).map
          (fun x => x.1)) := by
      rw [List.pairwise_map]
      have hs := List.sorted_insertionSort byBookmarkTimeDesc
        (events.flatMap (fun e =>
          (store.filter (favForEvent u e.id)).map (fun r => (e, r))))
      refine hs.imp_of_mem ?_
      intro x y hx hy hxy
      have hx' := (List.perm_insertionSort byBookmarkTimeDesc _).subset hx
      have hy' := (List.perm_insertionSort byBookmarkTimeDesc _).subset hy
      rw [hbt x hx', hbt y hy']
      exact hxy
    exact hpair.sublist hsub

/-- Witness for C9 on a concrete store of two favorite rows. -/
theorem getUserBookmarks_spec_witness :
    ∃ r ∈ ([⟨1, 1, true, false, 7⟩, ⟨1, 2, true, false, 9⟩] : List EventUser),
      r.userId = 1 ∧
        r.eventId = (⟨2, "b", "Paris", "festival", "jazz", 3, 4⟩ : Event).id ∧
        r.isFavorite = true :=
  (getUserBookmarks_spec
      [⟨1, "a", "Toulouse", "concert", "rock", 5, 6⟩,
        ⟨2, "b", "Paris", "festival", "jazz", 3, 4⟩]
      [⟨1, 1, true, false, 7⟩, ⟨1, 2, true, false, 9⟩] 1 1 20
      (by decide)).1
    ⟨2, "b", "Paris", "festival", "jazz", 3, 4⟩ (by decide)
